import Mathlib

/-!
Verification of the type-sweeper hexagonal minesweeper core (src/pixi.ts).

The TypeScript model layer is shallowly embedded: coordinates use `Int`
components, the sparse `GridMap` becomes an association list with
first-match lookup, JavaScript numbers used by the viewport algebra are
idealised as `Rat`, and the pegjs level grammar (levelParser.peg) becomes
a recursive-descent parser with PEG semantics (ordered choice, greedy
repetition, whole-input consumption).
-/

namespace TypeSweeper

/-- `GridPoint` from src/pixi.ts: a lattice position in the doubled-y
hexagonal coordinate scheme. -/
@[ext] structure GridPoint where
  x : Int
  y : Int
deriving DecidableEq, Repr

/-- `GridPoint.plus`: a new point shifted by an (x, y) offset. -/
def GridPoint.plus (p : GridPoint) (o : Int × Int) : GridPoint :=
  ⟨p.x + o.1, p.y + o.2⟩

/-- The six direct-neighbor offsets of `GridPoint.nbhd`, in source order
(clockwise, starting at the top). -/
def nbhdOffsets : List (Int × Int) :=
  [(0, -2), (1, -1), (1, 1), (0, 2), (-1, 1), (-1, -1)]

/-- `GridPoint.nbhd`: the six neighboring coordinates, clockwise from the top. -/
def GridPoint.nbhd (p : GridPoint) : List GridPoint :=
  nbhdOffsets.map p.plus

/-- The eighteen offsets of `GridPoint.bigNbhd`, in source order. -/
def bigNbhdOffsets : List (Int × Int) :=
  [(-1, -1), (0, -2), (1, -1), (1, 1), (0, 2), (-1, 1), (0, 4),
   (1, 3), (2, 2), (2, 0), (2, -2), (1, -3), (0, -4), (-1, -3),
   (-2, -2), (-2, 0), (-2, 2), (-1, 3)]

/-- `GridPoint.bigNbhd`: the extended neighborhood iterated by the source. -/
def GridPoint.bigNbhd (p : GridPoint) : List GridPoint :=
  bigNbhdOffsets.map p.plus

/-- `GridPoint.pixel`: virtual pixel coordinates `(1.5 x, 0.866 y)`.
JavaScript float arithmetic is idealised as exact rational arithmetic. -/
def GridPoint.pixel (p : GridPoint) : Rat × Rat :=
  (1.5 * (p.x : Rat), 0.866 * (p.y : Rat))

/-- Hint kinds `"simple"` and `"typed"` of the source. -/
inductive HintType where
  | simple
  | typed
deriving DecidableEq, Repr

/-- Passive-hint directions `"left" | "down" | "right"`. -/
inductive Direction where
  | left
  | down
  | right
deriving DecidableEq, Repr

/-- The pure state of a `Cell` (constructor order `revealed, mine, hint`
as in `new Cell(cell.revealed, cell.mine, cell.hint)`); rendering fields
are outside the model. `hint = none` embeds the TypeScript `null`. -/
structure Cell where
  revealed : Bool
  mine : Bool
  hint : Option HintType
deriving DecidableEq, Repr

/-- A grid entry is either a `Cell` or a `PassiveHint` (the source
distinguishes the two classes with type-guard functions). A passive hint
carries its direction and hint kind. -/
inductive Entity where
  | cell (c : Cell)
  | passiveHint (direction : Direction) (hintType : HintType)
deriving DecidableEq, Repr

/-- `Grid.content`: the sparse map from coordinates to entities, embedded
as an association list with unique keys and first-match lookup. -/
abbrev Grid := List (GridPoint × Entity)

/-- `GridMap.get`: first-match association-list lookup. -/
def gridGet : Grid → GridPoint → Option Entity
  | [], _ => none
  | (q, e) :: rest, p => if q = p then some e else gridGet rest p

/-- The mine test applied to every looked-up neighbor in `makeCaptions`:
`nbhdCell != undefined && !isPassiveHint(nbhdCell) && nbhdCell.mine`.
Absent coordinates and passive hints classify as not-mine. -/
def cellIsMine (g : Grid) (q : GridPoint) : Bool :=
  match gridGet g q with
  | some (Entity.cell c) => c.mine
  | _ => false

/-- The `adjacentPairCounter` loop of `makeCaptions`: `lastWasMine`
starts as `null` (embedded as `none`), and a pair is counted whenever the
current classification equals the previous one. The first comparison
against `null` never counts, exactly as `thisIsMine == null` is false in
JavaScript. -/
def pairCountAux : Option Bool → List Bool → Nat
  | _, [] => 0
  | last, b :: rest =>
    (if last = some b then 1 else 0) + pairCountAux (some b) rest

/-- The caption `makeCaptions` assigns to a non-passive cell at point `p`,
branching on `mine` and `hintType` exactly as the source does. -/
def cellCaption (g : Grid) (p : GridPoint) (c : Cell) : String :=
  if c.mine then
    match c.hint with
    | some HintType.simple => toString (p.bigNbhd.countP (cellIsMine g))
    | _ => "Error!"
  else
    match c.hint with
    | none => "?"
    | some HintType.simple => toString (p.nbhd.countP (cellIsMine g))
    | some HintType.typed =>
      let bs := p.nbhd.map (cellIsMine g)
      let pairs := pairCountAux none bs
      if 3 ≤ pairs then "\x7b" ++ toString (bs.count true) ++ "\x7d"
      else "-" ++ toString (bs.count true) ++ "-"

/-- A 2-D point of the viewport layer (`Point` in the source), with
JavaScript numbers idealised as rationals. -/
structure Point where
  x : Rat
  y : Rat
deriving DecidableEq, Repr

/-- `ZoomTrafo`: the transformation `p ↦ scale * p + offset`. -/
structure ZoomTrafo where
  scale : Rat
  offset : Point
deriving DecidableEq, Repr

/-- `ZoomTrafo.apply`. -/
def ZoomTrafo.apply (t : ZoomTrafo) (p : Point) : Point :=
  ⟨t.scale * p.x + t.offset.x, t.scale * p.y + t.offset.y⟩

/-- `ZoomTrafo.after`: `T.after(S)` is the transformation resulting from
first executing `S` and then executing `T`. -/
def ZoomTrafo.after (t first : ZoomTrafo) : ZoomTrafo :=
  ⟨t.scale * first.scale,
   ⟨t.offset.x + t.scale * first.offset.x,
    t.offset.y + t.scale * first.offset.y⟩⟩

/-- `Cell.tryRevealEmpty`: reveal the cell when it is not a mine,
otherwise leave it untouched (the source has a TODO for notifying the
player error; the `console.error` for an already revealed cell has no
state effect). -/
def tryRevealEmpty (c : Cell) : Cell :=
  if !c.mine then { c with revealed := true } else c

/-- `Cell.tryRevealMine`: reveal the cell when it is a mine, otherwise
leave it untouched. -/
def tryRevealMine (c : Cell) : Cell :=
  if c.mine then { c with revealed := true } else c

/-- A reveal request routed to the cell stored at `p`: a right click runs
`tryRevealMine` (the player believes the cell is a mine), a left click
runs `tryRevealEmpty`. All other entries are untouched. -/
def revealAt (g : Grid) (p : GridPoint) (believedMine : Bool) : Grid :=
  g.map fun e =>
    if e.1 = p then
      (e.1, match e.2 with
        | Entity.cell c =>
          Entity.cell (if believedMine then tryRevealMine c else tryRevealEmpty c)
        | h => h)
    else e

/-- Number of cyclic runs of `true` in a classification list: the number
of positions holding `true` whose cyclic predecessor holds `false`, with
an all-`true` nonempty list counting as one single run. This formalises
"the mine positions form k disjoint cyclic runs". -/
def cyclicRunStarts (bs : List Bool) : Nat :=
  (List.range bs.length).countP fun i =>
    bs.getD i false && !(bs.getD ((i + bs.length - 1) % bs.length) false)

/-- Number of contiguous cyclic groups of mines in a classification list. -/
def mineRunCount (bs : List Bool) : Nat :=
  if bs.all (fun b => b) then (if bs.isEmpty then 0 else 1)
  else cyclicRunStarts bs

/-- A typed non-mine cell at the origin surrounded by a full ring of six
mines. -/
def ringGrid : Grid :=
  [(⟨0, 0⟩, Entity.cell ⟨false, false, some HintType.typed⟩),
   (⟨0, -2⟩, Entity.cell ⟨false, true, none⟩),
   (⟨1, -1⟩, Entity.cell ⟨false, true, none⟩),
   (⟨1, 1⟩, Entity.cell ⟨false, true, none⟩),
   (⟨0, 2⟩, Entity.cell ⟨false, true, none⟩),
   (⟨-1, 1⟩, Entity.cell ⟨false, true, none⟩),
   (⟨-1, -1⟩, Entity.cell ⟨false, true, none⟩)]

/-- `PassiveHint.delta`: the per-direction translation step of a line
hint. -/
def Direction.delta : Direction → Int × Int
  | Direction.left => (-1, 1)
  | Direction.down => (0, 2)
  | Direction.right => (1, 1)

/-- The `typeState` strings of the line-hint walk in `makeCaptions`. -/
inductive TypeState where
  | initial
  | firstGroup
  | firstGroupOver
  | disjoint
deriving DecidableEq, Repr

/-- One `typeState` update of the line-hint walk, for a visited occupied
cell with the given mine flag. -/
def stepState (isMine : Bool) (st : TypeState) : TypeState :=
  if isMine then
    match st with
    | TypeState.initial => TypeState.firstGroup
    | TypeState.firstGroupOver => TypeState.disjoint
    | s => s
  else
    match st with
    | TypeState.firstGroup => TypeState.firstGroupOver
    | s => s

/-- One loop iteration body of the line-hint walk: look up the stepped
coordinate and, when it holds a cell, update count and state. -/
def visitCell (g : Grid) (q : GridPoint) (acc : Nat × TypeState) : Nat × TypeState :=
  match gridGet g q with
  | some (Entity.cell c) =>
    ((if c.mine then acc.1 + 1 else acc.1), stepState c.mine acc.2)
  | _ => acc

/-- The `while (linePoint.y < 300)` loop of `makeCaptions`. The loop
variable advances by `delta` whose y component is at least 1, so the
fuel `(300 - p.y).toNat` always suffices; `walkAux_fuel_congr` below
certifies that the result is fuel-independent beyond that bound. -/
def walkAux (g : Grid) (d : Direction) : Nat → GridPoint → Nat × TypeState → Nat × TypeState
  | 0, _, acc => acc
  | fuel + 1, p, acc =>
    if p.y < 300 then
      walkAux g d fuel (p.plus d.delta) (visitCell g (p.plus d.delta) acc)
    else acc

/-- The full line-hint walk starting at the hint coordinate with count 0
and state `initial`. -/
def lineWalk (g : Grid) (d : Direction) (p : GridPoint) : Nat × TypeState :=
  walkAux g d (300 - p.y).toNat p (0, TypeState.initial)

/-- The list of coordinates the line-hint walk visits, in order. -/
def visitAux (d : Direction) : Nat → GridPoint → List GridPoint
  | 0, _ => []
  | fuel + 1, p =>
    if p.y < 300 then p.plus d.delta :: visitAux d fuel (p.plus d.delta) else []

/-- The coordinates visited by the walk of `lineWalk`. -/
def lineVisited (d : Direction) (p : GridPoint) : List GridPoint :=
  visitAux d (300 - p.y).toNat p

/-- The state transition contributed by one visited coordinate. -/
def specStep (g : Grid) (st : TypeState) (q : GridPoint) : TypeState :=
  match gridGet g q with
  | some (Entity.cell c) => stepState c.mine st
  | _ => st

/-- The k-th coordinate on the infinite line of a hint at `p` with
direction `d`. -/
def stepN (p : GridPoint) (d : Direction) (k : Nat) : GridPoint :=
  ⟨p.x + (k : Int) * d.delta.1, p.y + (k : Int) * d.delta.2⟩

/-- The caption `makeCaptions` assigns to a passive line hint. In the
`initial` state with a nonzero count the source would log an error and
write a sentinel, but it then unconditionally overwrites the caption with
`"0"`, so the stored caption is `"0"` for the whole `initial` branch. -/
def lineCaption (g : Grid) (d : Direction) (p : GridPoint) (ht : HintType) : String :=
  let r := lineWalk g d p
  match ht with
  | HintType.simple => toString r.1
  | HintType.typed =>
    if r.2 = TypeState.disjoint then "-" ++ toString r.1 ++ "-"
    else if r.2 = TypeState.firstGroup ∨ r.2 = TypeState.firstGroupOver then
      "\x7b" ++ toString r.1 ++ "\x7d"
    else "0"

/-- The guard of the `console.error` branch for a typed line hint: taken
when the final state is neither `disjoint` nor `firstGroup` nor
`firstGroupOver` (hence `initial`) while the count is nonzero. -/
def lineInvalidState (g : Grid) (d : Direction) (p : GridPoint) : Bool :=
  let r := lineWalk g d p
  !(r.2 == TypeState.disjoint) &&
    !(r.2 == TypeState.firstGroup || r.2 == TypeState.firstGroupOver) &&
    (r.1 != 0)

/-- A one-cell grid used to instantiate the line-hint theorem. -/
def lineWitnessGrid : Grid := [(⟨0, 298⟩, Entity.cell ⟨false, true, none⟩)]

/-- Topological distance exactly 2 in the hex adjacency: reachable in two
adjacency steps, but neither the center itself nor a direct neighbor. -/
def atDistTwo (c q : GridPoint) : Prop :=
  (∃ n, n ∈ c.nbhd ∧ q ∈ n.nbhd) ∧ q ≠ c ∧ q ∉ c.nbhd

/-- `BoundingInterval` with unset bounds embedded as `none` (the source
initialises `min`/`max` to `null`). -/
structure BoundingInterval where
  min : Option Rat
  max : Option Rat
deriving DecidableEq, Repr

/-- `BoundingInterval.add`. -/
def BoundingInterval.add (b : BoundingInterval) (v : Rat) : BoundingInterval :=
  ⟨match b.min with
   | none => some v
   | some m => if m > v then some v else some m,
   match b.max with
   | none => some v
   | some m => if m < v then some v else some m⟩

/-- JavaScript numeric coercion of a possibly-`null` number: `null`
behaves as 0 in arithmetic. -/
def jsNumber : Option Rat → Rat
  | none => 0
  | some v => v

/-- `BoundingInterval.length` (`max - min`, with null coercion). -/
def BoundingInterval.length (b : BoundingInterval) : Rat :=
  jsNumber b.max - jsNumber b.min

/-- `BoundingInterval.center` (`(min + max) / 2`, with null coercion). -/
def BoundingInterval.center (b : BoundingInterval) : Rat :=
  (jsNumber b.min + jsNumber b.max) / 2

/-- `PassiveHint.boundingCenterOffset`. -/
def boundingCenterOffset : Direction → Rat × Rat
  | Direction.left => (-0.5, 0.5)
  | Direction.down => (0, 1)
  | Direction.right => (0.5, 0.5)

/-- `Grid.makeBoundingPoints`: fold every entity center (shifted for
passive hints) into the x and y bounding intervals. -/
def makeBoundingPoints (g : Grid) : BoundingInterval × BoundingInterval :=
  g.foldl
    (fun acc pe =>
      match pe.2 with
      | Entity.passiveHint dir _ =>
        (acc.1.add (pe.1.pixel.1 + (boundingCenterOffset dir).1),
         acc.2.add (pe.1.pixel.2 + (boundingCenterOffset dir).2))
      | Entity.cell _ =>
        (acc.1.add pe.1.pixel.1, acc.2.add pe.1.pixel.2))
    (⟨none, none⟩, ⟨none, none⟩)

/-- The value `Math.sqrt(3)` used as `yPadding`, written with the
shortest round-trip decimal of the IEEE double. -/
def sqrt3 : Rat := 1.7320508075688772

/-- `Grid.fitIntoFrame`: scale to fit the padded bounds, offset to center
them in the frame. The source has no empty-model check. -/
def fitIntoFrame (g : Grid) (width height : Rat) : ZoomTrafo :=
  let bounds := makeBoundingPoints g
  let xPadding : Rat := 2
  let yPadding : Rat := sqrt3
  let xScale := width / (bounds.1.length + xPadding)
  let yScale := height / (bounds.2.length + yPadding)
  let scale := min xScale yScale
  let xOffset := width / 2 - bounds.1.center * scale
  let yOffset := height / 2 - bounds.2.center * scale
  ZoomTrafo.mk scale ⟨xOffset, yOffset⟩

/-- A parsed grid slot of the pegjs grammar (levelParser.peg): an empty
slot is `none` at the row level, an occupied cell records
revealed/mine/hint, and a row-count hint its direction and kind. -/
inductive ParsedSlot where
  | cell (revealed : Bool) (mine : Bool) (hint : Option HintType)
  | rowCount (direction : Direction) (hint : HintType)
deriving DecidableEq, Repr

/-- A parsed level: title, author and grid rows. -/
structure ParsedLevel where
  title : String
  author : String
  grid : List (List (Option ParsedSlot))
deriving DecidableEq, Repr

/-- PEG rule `firstCellSymbol`, yielding the (mine, revealed) pair. -/
def firstCellSymbol : Char → Option (Bool × Bool)
  | 'x' => some (true, false)
  | 'X' => some (true, true)
  | 'o' => some (false, false)
  | 'O' => some (false, true)
  | _ => none

/-- PEG rule `cell` on one 2-character token: ordered choice between the
empty slot, `occupiedCell` and `rowCount`; every alternative consumes
exactly two characters. -/
def cellToken (a b : Char) : Option (Option ParsedSlot) :=
  if a = '.' ∧ b = '.' then some none
  else
    match firstCellSymbol a with
    | some (m, r) =>
      if b = '.' then some (some (ParsedSlot.cell r m none))
      else if b = '+' then
        some (some (ParsedSlot.cell r m (some HintType.simple)))
      else if b = 'c' ∨ b = 'n' then
        some (some (ParsedSlot.cell r m (some HintType.typed)))
      else none
    | none =>
      if a = '/' ∧ b = '+' then
        some (some (ParsedSlot.rowCount Direction.left HintType.simple))
      else if a = '|' ∧ b = '+' then
        some (some (ParsedSlot.rowCount Direction.down HintType.simple))
      else if a = '\\' ∧ b = '+' then
        some (some (ParsedSlot.rowCount Direction.right HintType.simple))
      else if a = '/' ∧ (b = 'c' ∨ b = 'n') then
        some (some (ParsedSlot.rowCount Direction.left HintType.typed))
      else if a = '|' ∧ (b = 'c' ∨ b = 'n') then
        some (some (ParsedSlot.rowCount Direction.down HintType.typed))
      else if a = '\\' ∧ (b = 'c' ∨ b = 'n') then
        some (some (ParsedSlot.rowCount Direction.right HintType.typed))
      else none

/-- Greedy `cell*` continuation of a line. -/
def pCells : List Char → List (Option ParsedSlot) × List Char
  | a :: b :: rest =>
    (match cellToken a b with
     | some s =>
       let r := pCells rest
       (s :: r.1, r.2)
     | none => ([], a :: b :: rest))
  | l => ([], l)

/-- The optional trailing newline of a grid line. -/
def dropNewline : List Char → List Char
  | '\n' :: rest => rest
  | l => l

/-- PEG rule `line`: one or more cells, then an optional newline. -/
def pLine (input : List Char) : Option (List (Option ParsedSlot) × List Char) :=
  match input with
  | a :: b :: rest =>
    (match cellToken a b with
     | some s =>
       let r := pCells rest
       some (s :: r.1, dropNewline r.2)
     | none => none)
  | _ => none

/-- Greedy `line*`: every successful line consumes at least two
characters, so fuel equal to the input length always suffices. -/
def pLines : Nat → List Char → List (List (Option ParsedSlot)) × List Char
  | 0, l => ([], l)
  | fuel + 1, l =>
    (match pLine l with
     | some (row, rest) =>
       let r := pLines fuel rest
       (row :: r.1, r.2)
     | none => ([], l))

/-- Literal matcher for a fixed character sequence. -/
def pLiteral : List Char → List Char → Option (List Char)
  | [], rest => some rest
  | c :: cs, d :: ds => if c = d then pLiteral cs ds else none
  | _ :: _, [] => none

/-- The fixed header line of a level. -/
def headerChars : List Char := "Hexcells level v1\n".toList

/-- PEG rule `name`: one or more non-newline characters, greedy. -/
def pName (input : List Char) : Option (List Char × List Char) :=
  let t := input.takeWhile (fun c => c != '\n')
  if t.isEmpty then none
  else some (t, input.dropWhile (fun c => c != '\n'))

/-- One or more newlines, greedy. -/
def pBlankLines (input : List Char) : Option (List Char) :=
  match input with
  | '\n' :: rest => some (rest.dropWhile (fun c => c == '\n'))
  | _ => none

/-- PEG rule `level`: header, title, newline, author, one or more
newlines, a non-empty sequence of grid lines, then trailing newlines. -/
def pLevel (input : List Char) : Option (ParsedLevel × List Char) :=
  match pLiteral headerChars input with
  | none => none
  | some r1 =>
    match pName r1 with
    | none => none
    | some (t, r2) =>
      match r2 with
      | '\n' :: r3 =>
        (match pName r3 with
         | none => none
         | some (a, r4) =>
           match pBlankLines r4 with
           | none => none
           | some r5 =>
             match pLines r5.length r5 with
             | ([], _) => none
             | (row :: rows, r6) =>
               some (⟨String.mk t, String.mk a, row :: rows⟩,
                 r6.dropWhile (fun c => c == '\n')))
      | _ => none

/-- Greedy `level*` continuation. -/
def pLevelsAux : Nat → List Char → List ParsedLevel × List Char
  | 0, l => ([], l)
  | fuel + 1, l =>
    (match pLevel l with
     | some (lv, rest) =>
       let r := pLevelsAux fuel rest
       (lv :: r.1, r.2)
     | none => ([], l))

/-- `parseLevelFile` through the pegjs start rule `level+`: at least one
level must parse and the whole input must be consumed, otherwise the
generated parser raises a SyntaxError, embedded here as `none`. -/
def parseLevelFile (s : String) : Option (List ParsedLevel) :=
  match pLevel s.toList with
  | none => none
  | some (lv, rest) =>
    let r := pLevelsAux rest.length rest
    if r.2.isEmpty then some (lv :: r.1) else none

/-- A level text whose two grid rows contain 1 and 2 cell tokens. -/
def raggedLevel : String := "Hexcells level v1\nT\nA\n\n..\n..x.\n"

/-- A level text whose grid line starts with an unrecognized token. -/
def badTokenLevel : String := "Hexcells level v1\nT\nA\n\nzz\n"

/-- A typed non-mine cell at the origin whose six neighbors alternate
mine, empty, mine, empty, mine, empty in scan order. -/
def altGrid : Grid :=
  [(⟨0, 0⟩, Entity.cell ⟨false, false, some HintType.typed⟩),
   (⟨0, -2⟩, Entity.cell ⟨false, true, none⟩),
   (⟨1, -1⟩, Entity.cell ⟨false, false, none⟩),
   (⟨1, 1⟩, Entity.cell ⟨false, true, none⟩),
   (⟨0, 2⟩, Entity.cell ⟨false, false, none⟩),
   (⟨-1, 1⟩, Entity.cell ⟨false, true, none⟩),
   (⟨-1, -1⟩, Entity.cell ⟨false, false, none⟩)]

end TypeSweeper

namespace TypeSweeper

/-- Relative-offset characterisation of membership in an offset-translated
list such as `nbhd` and `bigNbhd`. -/
theorem mem_map_plus_iff (off : List (Int × Int)) (p q : GridPoint) :
    q ∈ off.map p.plus ↔ (q.x - p.x, q.y - p.y) ∈ off := by
  simp only [List.mem_map]
  constructor
  · rintro ⟨o, ho, rfl⟩
    simpa [GridPoint.plus] using ho
  · intro h
    refine ⟨_, h, ?_⟩
    ext <;> simp [GridPoint.plus]

/-- Membership in the direct neighborhood, as a relative offset. -/
theorem mem_nbhd_iff (p q : GridPoint) :
    q ∈ p.nbhd ↔ (q.x - p.x, q.y - p.y) ∈ nbhdOffsets :=
  mem_map_plus_iff nbhdOffsets p q

/-- Membership in the extended neighborhood, as a relative offset. -/
theorem mem_bigNbhd_iff (p q : GridPoint) :
    q ∈ p.bigNbhd ↔ (q.x - p.x, q.y - p.y) ∈ bigNbhdOffsets :=
  mem_map_plus_iff bigNbhdOffsets p q

/-- Translation by a fixed point is injective. -/
theorem plus_injective (p : GridPoint) : Function.Injective p.plus := by
  intro a b h
  have hx := congrArg GridPoint.x h
  have hy := congrArg GridPoint.y h
  simp [GridPoint.plus] at hx hy
  exact Prod.ext hx hy

/-- C9: for every coordinate, `nbhd` yields exactly 6 pairwise distinct
coordinates, and the adjacency relation is symmetric: `c` is among the
neighbors of each of its neighbors. -/
theorem nbhd_six_distinct_symmetric (c : GridPoint) :
    c.nbhd.length = 6 ∧ c.nbhd.Nodup ∧ ∀ n ∈ c.nbhd, c ∈ n.nbhd := by
  refine ⟨by simp [GridPoint.nbhd, nbhdOffsets], ?_, ?_⟩
  · exact List.Nodup.map (plus_injective c) (by decide)
  · intro n hn
    rw [mem_nbhd_iff] at hn ⊢
    have key : ∀ o ∈ nbhdOffsets, (-o.1, -o.2) ∈ nbhdOffsets := by decide
    have h2 := key _ hn
    have hx : c.x - n.x = -(n.x - c.x) := by ring
    have hy : c.y - n.y = -(n.y - c.y) := by ring
    rw [hx, hy]
    exact h2

/-- Witness for C9 at the origin and its top neighbor. -/
theorem nbhd_six_distinct_symmetric_witness :
    (⟨0, 0⟩ : GridPoint) ∈ (GridPoint.mk 0 (-2)).nbhd :=
  (nbhd_six_distinct_symmetric ⟨0, 0⟩).2.2 ⟨0, -2⟩ (by decide)

/-- C5: composing transforms with `after` is exactly function composition
of `apply`, with the scale multiplying and the offset composing affinely. -/
theorem zoomtrafo_after_apply (t2 t1 : ZoomTrafo) (p : Point) :
    (t2.after t1).apply p = t2.apply (t1.apply p) ∧
      (t2.after t1).scale = t2.scale * t1.scale ∧
      (t2.after t1).offset.x = t2.offset.x + t2.scale * t1.offset.x ∧
      (t2.after t1).offset.y = t2.offset.y + t2.scale * t1.offset.y := by
  refine ⟨?_, rfl, rfl, rfl⟩
  simp only [ZoomTrafo.apply, ZoomTrafo.after, Point.mk.injEq]
  constructor <;> ring

/-- Counting `true` in a mapped classification list is the length of the
filtered list. -/
theorem count_true_map (l : List GridPoint) (f : GridPoint → Bool) :
    (l.map f).count true = (l.filter f).length := by
  induction l with
  | nil => rfl
  | cons a t ih => cases h : f a <;> simp [h, ih, List.count_cons]

/-- The running pair counter seeded with a previous classification equals
the number of equal consecutive pairs of the extended list. -/
theorem pairCountAux_some (a : Bool) (bs : List Bool) :
    pairCountAux (some a) bs = ((a :: bs).zip bs).countP fun q => q.1 == q.2 := by
  induction bs generalizing a with
  | nil => rfl
  | cons b t ih =>
    simp only [pairCountAux, ih, List.zip_cons_cons, List.countP_cons]
    by_cases h : a = b
    · simp [h]
      omega
    · simp [h]

/-- The source pair counter (seeded with `null`) counts exactly the
consecutive scan pairs with equal classification. -/
theorem pairCountAux_eq_zip (bs : List Bool) :
    pairCountAux none bs = (bs.zip bs.tail).countP fun q => q.1 == q.2 := by
  cases bs with
  | nil => rfl
  | cons b t => simpa [pairCountAux] using pairCountAux_some b t

/-- C1: for a non-mine cell with a typed hint the caption is determined by
the clockwise non-wrapping neighbor scan: with `count` the number of mine
neighbors and the pair counter the number of consecutive scan pairs with
equal classification, the caption is braced when at least 3 pairs match
and dashed otherwise; a full ring of six mines gives the braced caption
for 6 and three alternating mines give the dashed caption for 3. -/
theorem typed_cell_caption_spec :
    (∀ (g : Grid) (p : GridPoint) (r : Bool),
      cellCaption g p ⟨r, false, some HintType.typed⟩ =
        (if 3 ≤ (((p.nbhd.map (cellIsMine g)).zip
              (p.nbhd.map (cellIsMine g)).tail).countP fun q => q.1 == q.2) then
          "\x7b" ++ toString (p.nbhd.filter (cellIsMine g)).length ++ "\x7d"
        else
          "-" ++ toString (p.nbhd.filter (cellIsMine g)).length ++ "-")) ∧
    cellCaption ringGrid ⟨0, 0⟩ ⟨false, false, some HintType.typed⟩ = "\x7b6\x7d" ∧
    cellCaption altGrid ⟨0, 0⟩ ⟨false, false, some HintType.typed⟩ = "-3-" := by
  refine ⟨?_, by decide, by decide⟩
  intro g p r
  simp only [cellCaption, pairCountAux_eq_zip, count_true_map,
    Bool.false_eq_true, if_false]

/-- C4: over all assignments of mine/not-mine to the six clockwise-scanned
neighbors, a single contiguous cyclic run of mines always produces at
least 3 equal consecutive pairs in the non-wrapping scan, and two or more
disjoint cyclic runs produce at most 2. -/
theorem adjacent_pair_threshold (b0 b1 b2 b3 b4 b5 : Bool) :
    (mineRunCount [b0, b1, b2, b3, b4, b5] = 1 →
      3 ≤ pairCountAux none [b0, b1, b2, b3, b4, b5]) ∧
    (2 ≤ mineRunCount [b0, b1, b2, b3, b4, b5] →
      pairCountAux none [b0, b1, b2, b3, b4, b5] ≤ 2) := by
  revert b0 b1 b2 b3 b4 b5
  decide

/-- Witness for C4: one run of two mines is detected as contiguous, two
separated single mines as disjoint. -/
theorem adjacent_pair_threshold_witness :
    3 ≤ pairCountAux none [true, true, false, false, false, false] ∧
    pairCountAux none [true, false, true, false, false, false] ≤ 2 :=
  ⟨(adjacent_pair_threshold true true false false false false).1 (by decide),
   (adjacent_pair_threshold true false true false false false).2 (by decide)⟩

/-- A reveal request leaves the grid unchanged whenever the routed cell
operation fixes every cell stored at the requested coordinate. -/
theorem revealAt_unchanged (g : Grid) (p : GridPoint) (b : Bool)
    (h : ∀ c : Cell, (p, Entity.cell c) ∈ g →
      (if b then tryRevealMine c else tryRevealEmpty c) = c) :
    revealAt g p b = g := by
  induction g with
  | nil => rfl
  | cons e t ih =>
    have ht : revealAt t p b = t := ih fun c hc => h c (List.mem_cons_of_mem _ hc)
    obtain ⟨q, ent⟩ := e
    simp only [revealAt, List.map_cons] at ht ⊢
    rw [ht]
    by_cases hq : q = p
    · subst hq
      cases ent with
      | cell c =>
        have hc := h c (List.mem_cons_self _ _)
        simp [hc]
      | passiveHint d k => simp
    · simp [hq]

/-- C6: on a hidden cell, a reveal whose belief matches `mine` transitions
the cell to revealed (changing nothing else), while a mismatched belief is
a player mistake that leaves the cell, and the whole grid, exactly
unchanged. -/
theorem reveal_state_machine :
    (∀ c : Cell, c.revealed = false →
      (c.mine = false →
        tryRevealEmpty c = { c with revealed := true } ∧ tryRevealMine c = c) ∧
      (c.mine = true →
        tryRevealMine c = { c with revealed := true } ∧ tryRevealEmpty c = c)) ∧
    (∀ (g : Grid) (p : GridPoint),
      (∀ c : Cell, (p, Entity.cell c) ∈ g → c.mine = false) →
        revealAt g p true = g) ∧
    (∀ (g : Grid) (p : GridPoint),
      (∀ c : Cell, (p, Entity.cell c) ∈ g → c.mine = true) →
        revealAt g p false = g) := by
  refine ⟨?_, ?_, ?_⟩
  · intro c _
    constructor
    · intro hm
      constructor <;> simp [tryRevealEmpty, tryRevealMine, hm]
    · intro hm
      constructor <;> simp [tryRevealEmpty, tryRevealMine, hm]
  · intro g p h
    exact revealAt_unchanged g p true fun c hc => by
      simp [tryRevealMine, h c hc]
  · intro g p h
    exact revealAt_unchanged g p false fun c hc => by
      simp [tryRevealEmpty, h c hc]

/-- Witness for C6: a hidden non-mine cell is revealed by the matching
request and untouched by the mismatched one. -/
theorem reveal_state_machine_witness :
    tryRevealEmpty ⟨false, false, none⟩ = ⟨true, false, none⟩ ∧
    tryRevealMine ⟨false, false, none⟩ = ⟨false, false, none⟩ :=
  (reveal_state_machine.1 ⟨false, false, none⟩ rfl).1 rfl

/-- Every walk direction advances y by at least 1 per step. -/
theorem delta_y_one_le (d : Direction) : 1 ≤ d.delta.2 := by
  cases d <;> decide

/-- The walk result does not depend on the fuel once the fuel covers the
remaining y range: the fuel encoding is faithful to the unbounded
`while (linePoint.y < 300)` loop. -/
theorem walkAux_fuel_congr (g : Grid) (d : Direction) :
    ∀ f1 f2 (p : GridPoint) (acc : Nat × TypeState),
      (300 - p.y).toNat ≤ f1 → (300 - p.y).toNat ≤ f2 →
      walkAux g d f1 p acc = walkAux g d f2 p acc := by
  intro f1
  induction f1 with
  | zero =>
    intro f2 p acc h1 h2
    have hy : ¬p.y < 300 := by omega
    cases f2 with
    | zero => rfl
    | succ f => simp [walkAux, hy]
  | succ f ih =>
    intro f2 p acc h1 h2
    have hstep : (p.plus d.delta).y = p.y + d.delta.2 := rfl
    have hd := delta_y_one_le d
    cases f2 with
    | zero =>
      have hy : ¬p.y < 300 := by omega
      simp [walkAux, hy]
    | succ f2 =>
      by_cases hy : p.y < 300
      · simp only [walkAux, if_pos hy]
        exact ih f2 _ _ (by omega) (by omega)
      · simp [walkAux, hy]

/-- One loop iteration in terms of the mine test and the abstract state
step. -/
theorem visitCell_eq (g : Grid) (q : GridPoint) (c : Nat) (st : TypeState) :
    visitCell g q (c, st) =
      (c + (if cellIsMine g q then 1 else 0), specStep g st q) := by
  unfold visitCell specStep cellIsMine
  cases hg : gridGet g q with
  | none => simp
  | some e =>
    cases e with
    | cell cc => cases hm : cc.mine <;> simp [hm]
    | passiveHint dd k => simp

/-- The imperative walk equals a count plus a state fold over the list of
visited coordinates. -/
theorem walkAux_eq_fold (g : Grid) (d : Direction) :
    ∀ f (p : GridPoint) (c : Nat) (st : TypeState),
      walkAux g d f p (c, st) =
        (c + (visitAux d f p).countP (cellIsMine g),
         (visitAux d f p).foldl (specStep g) st) := by
  intro f
  induction f with
  | zero => intro p c st; simp [walkAux, visitAux]
  | succ f ih =>
    intro p c st
    by_cases hy : p.y < 300
    · simp only [walkAux, visitAux, if_pos hy]
      rw [visitCell_eq, ih]
      simp only [List.countP_cons, List.foldl_cons, Prod.mk.injEq]
      exact ⟨by omega, by trivial⟩
    · simp [walkAux, visitAux, hy]

/-- Every visited coordinate lies on the hint line, at least one step out. -/
theorem visitAux_subset_line (d : Direction) :
    ∀ f (p q : GridPoint), q ∈ visitAux d f p →
      ∃ k : Nat, 1 ≤ k ∧ q = stepN p d k := by
  intro f
  induction f with
  | zero => intro p q h; simp [visitAux] at h
  | succ f ih =>
    intro p q h
    by_cases hy : p.y < 300
    · simp only [visitAux, if_pos hy, List.mem_cons] at h
      rcases h with h | h
      · refine ⟨1, le_refl 1, ?_⟩
        subst h
        ext <;> simp [stepN, GridPoint.plus]
      · obtain ⟨k, hk, hq⟩ := ih (p.plus d.delta) q h
        refine ⟨k + 1, by omega, ?_⟩
        subst hq
        ext <;> simp [stepN, GridPoint.plus, Nat.cast_add] <;> ring
    · simp [visitAux, hy] at h

/-- Every line coordinate that still lies below the walk bound is visited,
provided the fuel covers the remaining y range. -/
theorem stepN_mem_visitAux (d : Direction) :
    ∀ f (p : GridPoint) (k : Nat), 1 ≤ k → (stepN p d k).y < 300 →
      (300 - p.y).toNat ≤ f → stepN p d k ∈ visitAux d f p := by
  intro f
  induction f with
  | zero =>
    intro p k hk hy hf
    exfalso
    have hd := delta_y_one_le d
    have h2 : (stepN p d k).y = p.y + (k : Int) * d.delta.2 := rfl
    have h3 : (k : Int) * 1 ≤ (k : Int) * d.delta.2 :=
      mul_le_mul_of_nonneg_left hd (by positivity)
    omega
  | succ f ih =>
    intro p k hk hy hf
    have hd := delta_y_one_le d
    have h2 : (stepN p d k).y = p.y + (k : Int) * d.delta.2 := rfl
    have h3 : (k : Int) * 1 ≤ (k : Int) * d.delta.2 :=
      mul_le_mul_of_nonneg_left hd (by positivity)
    have hpy : p.y < 300 := by omega
    simp only [visitAux, if_pos hpy, List.mem_cons]
    rcases Nat.lt_or_ge 1 k with hk2 | hk2
    · right
      have hstep : stepN (p.plus d.delta) d (k - 1) = stepN p d k := by
        ext <;> simp only [stepN, GridPoint.plus] <;>
          push_cast [Nat.cast_sub (by omega : 1 ≤ k)] <;> ring
      have hplus : (p.plus d.delta).y = p.y + d.delta.2 := rfl
      have hmem := ih (p.plus d.delta) (k - 1) (by omega)
        (by rw [hstep]; exact hy) (by omega)
      rwa [hstep] at hmem
    · left
      have hk1 : k = 1 := by omega
      subst hk1
      ext <;> simp [stepN, GridPoint.plus]

/-- A successful lookup means the key is stored in the grid. -/
theorem gridGet_isSome_mem (g : Grid) (p : GridPoint) :
    (gridGet g p).isSome = true → ∃ e, (p, e) ∈ g := by
  induction g with
  | nil => intro h; simp [gridGet] at h
  | cons pe t ih =>
    obtain ⟨q, e⟩ := pe
    intro h
    by_cases hq : q = p
    · exact ⟨e, by simp [hq]⟩
    · simp only [gridGet, if_neg hq] at h
      obtain ⟨e2, he⟩ := ih h
      exact ⟨e2, List.mem_cons_of_mem _ he⟩

/-- C2: a line hint walks the infinite line by repeated per-direction
translation starting one step away; its count is the number of mines
among the occupied cells met, the classifier is the fold of the 3-state
transition over the visited coordinates, under the bound precondition
every populated line coordinate is met, and the caption is the decimal
count for Simple hints and the brace/dash/zero format for Typed hints. -/
theorem line_hint_caption_spec (g : Grid) (p : GridPoint) (d : Direction)
    (ht : HintType) (hb : ∀ e ∈ g, e.1.y < 300) :
    (lineWalk g d p).1 = (lineVisited d p).countP (cellIsMine g) ∧
    (lineWalk g d p).2 = (lineVisited d p).foldl (specStep g) TypeState.initial ∧
    (∀ q ∈ lineVisited d p, ∃ k : Nat, 1 ≤ k ∧ q = stepN p d k) ∧
    (∀ k : Nat, 1 ≤ k → (gridGet g (stepN p d k)).isSome = true →
      stepN p d k ∈ lineVisited d p) ∧
    lineCaption g d p ht =
      (match ht with
       | HintType.simple => toString (lineWalk g d p).1
       | HintType.typed =>
         if (lineWalk g d p).2 = TypeState.firstGroup ∨
             (lineWalk g d p).2 = TypeState.firstGroupOver then
           "\x7b" ++ toString (lineWalk g d p).1 ++ "\x7d"
         else if (lineWalk g d p).2 = TypeState.disjoint then
           "-" ++ toString (lineWalk g d p).1 ++ "-"
         else "0") := by
  refine ⟨?_, ?_, ?_, ?_, ?_⟩
  · rw [lineWalk, lineVisited, walkAux_eq_fold]
    simp
  · rw [lineWalk, lineVisited, walkAux_eq_fold]
  · exact fun q hq => visitAux_subset_line d _ p q hq
  · intro k hk hsome
    obtain ⟨e, he⟩ := gridGet_isSome_mem g _ hsome
    exact stepN_mem_visitAux d _ p k hk (hb (stepN p d k, e) he) (le_refl _)
  · cases ht with
    | simple => rfl
    | typed => cases hst : (lineWalk g d p).2 <;> simp [lineCaption, hst]

/-- Witness for C2: in a one-cell grid the populated line coordinate one
step below a down hint is among the visited coordinates. -/
theorem line_hint_caption_spec_witness :
    stepN ⟨0, 296⟩ Direction.down 1 ∈ lineVisited Direction.down ⟨0, 296⟩ :=
  (line_hint_caption_spec lineWitnessGrid ⟨0, 296⟩ Direction.down HintType.simple
    (by decide)).2.2.2.1 1 (by decide) (by decide)

/-- In the `initial` state the count is zero, and this is preserved by one
loop iteration. -/
theorem visitCell_initial (g : Grid) (q : GridPoint) (c : Nat) (st : TypeState)
    (h : st = TypeState.initial → c = 0) :
    (visitCell g q (c, st)).2 = TypeState.initial →
      (visitCell g q (c, st)).1 = 0 := by
  unfold visitCell
  cases hg : gridGet g q with
  | none => exact h
  | some e =>
    cases e with
    | cell cc =>
      cases hm : cc.mine
      · intro h2
        simp only [hm, Bool.false_eq_true, if_false]
        simp only [hm] at h2
        apply h
        cases st <;> simp_all [stepState]
      · intro h2
        exfalso
        simp only [hm] at h2
        cases st <;> simp_all [stepState]
    | passiveHint dd k => exact h

/-- The walk preserves the invariant "state `initial` implies count 0". -/
theorem walkAux_initial_zero (g : Grid) (d : Direction) :
    ∀ f (p : GridPoint) (c : Nat) (st : TypeState),
      (st = TypeState.initial → c = 0) →
      (walkAux g d f p (c, st)).2 = TypeState.initial →
      (walkAux g d f p (c, st)).1 = 0 := by
  intro f
  induction f with
  | zero => intro p c st h1 h2; exact h1 h2
  | succ f ih =>
    intro p c st h1 h2
    by_cases hy : p.y < 300
    · simp only [walkAux, if_pos hy] at h2 ⊢
      rcases hv : visitCell g (p.plus d.delta) (c, st) with ⟨c2, st2⟩
      rw [hv] at h2
      refine ih _ c2 st2 ?_ h2
      intro hinit
      have h3 := visitCell_initial g (p.plus d.delta) c st h1
      rw [hv] at h3
      exact h3 hinit
    · simp only [walkAux, if_neg hy] at h2 ⊢
      exact h1 h2

/-- C10: along the line-hint walk the state `initial` implies count 0,
so a walk finishing in state `initial` has mine count 0 and the error
branch guarded by `lineInvalidState` is unreachable. -/
theorem line_walk_initial_invariant :
    (∀ (g : Grid) (d : Direction) (f : Nat) (p : GridPoint) (c : Nat)
        (st : TypeState), (st = TypeState.initial → c = 0) →
        (walkAux g d f p (c, st)).2 = TypeState.initial →
        (walkAux g d f p (c, st)).1 = 0) ∧
    ∀ (g : Grid) (d : Direction) (p : GridPoint),
      lineInvalidState g d p = false := by
  refine ⟨fun g d f p c st => walkAux_initial_zero g d f p c st, ?_⟩
  intro g d p
  have h := walkAux_initial_zero g d ((300 - p.y).toNat) p 0 TypeState.initial
    (fun _ => rfl)
  simp only [lineInvalidState, lineWalk] at h ⊢
  rcases hst : (walkAux g d ((300 - p.y).toNat) p (0, TypeState.initial)).2 <;>
    simp [hst]
  exact h hst

/-- Witness for C10: the empty walk ends in state `initial` with count 0. -/
theorem line_walk_initial_invariant_witness :
    (walkAux ([] : Grid) Direction.down 0 ⟨0, 300⟩ (0, TypeState.initial)).1 = 0 :=
  line_walk_initial_invariant.1 [] Direction.down 0 ⟨0, 300⟩ 0 TypeState.initial
    (fun _ => rfl) (by decide)

/-- C3 counterexample: the extended neighborhood of the origin contains
the direct neighbor (0, -2), so not all of its 18 coordinates are at
distance exactly 2 and it does not exclude the 6 direct neighbors. -/
theorem bigNbhd_contains_direct_neighbor :
    GridPoint.mk 0 (-2) ∈ (GridPoint.mk 0 0).bigNbhd ∧
    GridPoint.mk 0 (-2) ∈ (GridPoint.mk 0 0).nbhd := by
  decide

/-- An offset that is a sum of two neighbor offsets, is not zero and is
not itself a neighbor offset lands at topological distance exactly 2. -/
theorem atDistTwo_plus (c : GridPoint) (o : Int × Int)
    (h1 : ∃ o1 ∈ nbhdOffsets, ∃ o2 ∈ nbhdOffsets, o1 + o2 = o)
    (h2 : o ≠ (0, 0)) (h3 : o ∉ nbhdOffsets) : atDistTwo c (c.plus o) := by
  obtain ⟨o1, ho1, o2, ho2, hsum⟩ := h1
  have hx : o1.1 + o2.1 = o.1 := by rw [← hsum]; rfl
  have hy : o1.2 + o2.2 = o.2 := by rw [← hsum]; rfl
  refine ⟨⟨c.plus o1, List.mem_map_of_mem _ ho1, ?_⟩, ?_, ?_⟩
  · rw [mem_nbhd_iff]
    have hx2 : (c.plus o).x - (c.plus o1).x = o2.1 := by
      simp only [GridPoint.plus]; omega
    have hy2 : (c.plus o).y - (c.plus o1).y = o2.2 := by
      simp only [GridPoint.plus]; omega
    rw [hx2, hy2]
    simpa using ho2
  · intro hEq
    apply h2
    have hx3 := congrArg GridPoint.x hEq
    have hy3 := congrArg GridPoint.y hEq
    simp only [GridPoint.plus] at hx3 hy3
    have : o.1 = 0 := by omega
    have : o.2 = 0 := by omega
    exact Prod.ext (by omega) (by omega)
  · intro hmem
    apply h3
    rw [mem_nbhd_iff] at hmem
    simpa [GridPoint.plus, add_sub_cancel_left] using hmem

/-- C3 amended: `bigNbhd` yields exactly 18 distinct coordinates made of
the 6 direct neighbors together with the 12 coordinates at topological
distance exactly 2 (distance at most 2, excluding the center); the mine
Simple caption therefore counts mines over this set, including the direct
neighbors. -/
theorem bigNbhd_amended (c : GridPoint) :
    (c.bigNbhd.length = 18 ∧ c.bigNbhd.Nodup) ∧
    (∀ q ∈ c.nbhd, q ∈ c.bigNbhd) ∧
    (∀ q ∈ c.bigNbhd, q ∈ c.nbhd ∨ atDistTwo c q) ∧
    (∀ (g : Grid) (r : Bool),
      cellCaption g c ⟨r, true, some HintType.simple⟩ =
        toString (c.bigNbhd.countP (cellIsMine g))) := by
  refine ⟨⟨by simp [GridPoint.bigNbhd, bigNbhdOffsets],
    List.Nodup.map (plus_injective c) (by decide)⟩, ?_, ?_, ?_⟩
  · intro q hq
    rw [mem_nbhd_iff] at hq
    rw [mem_bigNbhd_iff]
    exact (by decide : ∀ o ∈ nbhdOffsets, o ∈ bigNbhdOffsets) _ hq
  · intro q hq
    simp only [GridPoint.bigNbhd, List.mem_map] at hq
    obtain ⟨o, ho, rfl⟩ := hq
    have key : ∀ o ∈ bigNbhdOffsets, o ∈ nbhdOffsets ∨
        ((∃ o1 ∈ nbhdOffsets, ∃ o2 ∈ nbhdOffsets, o1 + o2 = o) ∧
          o ≠ (0, 0) ∧ o ∉ nbhdOffsets) := by decide
    rcases key o ho with h | ⟨h1, h2, h3⟩
    · left
      rw [mem_nbhd_iff]
      simpa [GridPoint.plus, add_sub_cancel_left] using h
    · right
      exact atDistTwo_plus c o h1 h2 h3
  · intro g r
    rfl

/-- Witness for C3 at the origin: the offset (2, 0) lies in the extended
neighborhood and is correctly classified. -/
theorem bigNbhd_amended_witness :
    GridPoint.mk 2 0 ∈ (GridPoint.mk 0 0).nbhd ∨
      atDistTwo ⟨0, 0⟩ ⟨2, 0⟩ :=
  (bigNbhd_amended ⟨0, 0⟩).2.2.1 ⟨2, 0⟩ (by decide)

/-- C8 counterexample: on the empty model `fitIntoFrame` does not fail;
the unset bounds coerce to 0 and a concrete transform is returned. -/
theorem fitIntoFrame_empty_returns :
    fitIntoFrame [] 1000 600 = ZoomTrafo.mk (600 / sqrt3) ⟨500, 300⟩ := by
  simp only [fitIntoFrame, makeBoundingPoints, List.foldl_nil,
    BoundingInterval.length, BoundingInterval.center, jsNumber,
    ZoomTrafo.mk.injEq, Point.mk.injEq]
  norm_num [sqrt3]

/-- C8 amended: on an empty model the bounding intervals stay unset, the
JavaScript null coercion yields length 0 and center 0, and `fitIntoFrame`
returns the transform with scale `min (w/2) (h/sqrt3)` and offset
`(w/2, h/2)` instead of failing. -/
theorem fitIntoFrame_empty_amended (w h : Rat) :
    fitIntoFrame [] w h =
      ZoomTrafo.mk (min (w / 2) (h / sqrt3)) ⟨w / 2, h / 2⟩ := by
  simp only [fitIntoFrame, makeBoundingPoints, List.foldl_nil,
    BoundingInterval.length, BoundingInterval.center, jsNumber,
    ZoomTrafo.mk.injEq, Point.mk.injEq]
  norm_num

/-- C7 counterexample: a level whose grid rows hold 1 and 2 tokens parses
successfully — ragged rows are not rejected with a SyntaxError. -/
theorem ragged_rows_parse :
    parseLevelFile raggedLevel =
      some [⟨"T", "A",
        [[none], [none, some (ParsedSlot.cell false true none)]]⟩] := by
  decide

/-- C7 amended: the grammar parses every grid line independently as one
or more cell tokens, so rows of differing token counts are accepted and
returned with their differing lengths, while a malformed token still
fails the whole level with a SyntaxError. -/
theorem ragged_rows_accepted :
    (parseLevelFile raggedLevel).map
        (fun ls => ls.map fun lv => lv.grid.map List.length) =
      some [[1, 2]] ∧
    parseLevelFile badTokenLevel = none := by
  constructor <;> decide

end TypeSweeper
